import Mathlib

/-!
Verification of the event-normalization and calendar-serialization pipeline of
the schedule-to-calendar repository (source: `src/unnamed/part_000`, the
Next.js route handler).  The pipeline parses untrusted JSON event records into
`Date`-based events, deduplicates and sorts them, and serializes an ICS
document.

JavaScript `Date` semantics used by the source are embedded as follows.  A
`Date` produced by `new Date(year, month, day, hour, minute, second)` is,
per ECMA-262 (MakeDay / MakeTime / TimeClip), a point on the proleptic
Gregorian calendar obtained by letting every component roll over into the
next larger unit (e.g. `new Date(2026, 1, 30)` is March 2 2026), invalid
(`NaN`) exactly when the resulting time value exceeds 8.64e15 milliseconds
in absolute value.  We represent a valid `Date` as its normalized local
wall-clock fields (`JSDate`); `getTime` recomputes the ECMA time value from
the fields (the field representation and the millisecond representation are
in bijection, which we prove as injectivity of `getTime`).
-/

/-- Gregorian leap-year test, as in ECMA-262 DaysInYear. -/
def isLeap (y : Int) : Bool :=
  ((y % 4 == 0) && !(y % 100 == 0)) || (y % 400 == 0)

/-- Number of days in month `m` (1-based) of year `y`.  Months outside 1..12
never occur on normalized dates; they are mapped to 31 to keep the function
total. -/
def daysInMonth (y : Int) (m : Nat) : Nat :=
  match m with
  | 1 => 31
  | 2 => if isLeap y then 29 else 28
  | 3 => 31
  | 4 => 30
  | 5 => 31
  | 6 => 30
  | 7 => 31
  | 8 => 31
  | 9 => 30
  | 10 => 31
  | 11 => 30
  | 12 => 31
  | _ => 31

/-- Days in year `y` strictly before month `m` (1-based). -/
def monthStartDays (y : Int) : Nat → Nat
  | 0 => 0
  | 1 => 0
  | (m + 2) => monthStartDays y (m + 1) + daysInMonth y (m + 1)

/-- Number of Gregorian leap years `k` with `k < y`, up to a constant offset
(an antiderivative of the leap-year indicator). -/
def leapsBefore (y : Int) : Int :=
  (y - 1) / 4 - (y - 1) / 100 + (y - 1) / 400

/-- Day number (days since 1970-01-01) of January 1 of year `y` on the
proleptic Gregorian calendar. -/
def yearStartDay (y : Int) : Int :=
  365 * (y - 1970) + (leapsBefore y - leapsBefore 1970)

/-- Day number of the point reached by starting at month `m` (1-based) of
year `y` and advancing `d - 1` days; `d` need not lie inside the month
(this is exactly ECMA-262 MakeDay's treatment of the date component). -/
def daysFromCivilRaw (y : Int) (m : Nat) (d : Int) : Int :=
  yearStartDay y + (monthStartDays y m : Int) + (d - 1)

theorem daysInMonth_ge (y : Int) (m : Nat) : 28 ≤ daysInMonth y m := by
  unfold daysInMonth
  split
  all_goals first
    | omega
    | (split <;> omega)

theorem daysInMonth_le (y : Int) (m : Nat) : daysInMonth y m ≤ 31 := by
  unfold daysInMonth
  split
  all_goals first
    | omega
    | (split <;> omega)

theorem monthStartDays_succ (y : Int) (m : Nat) (h : 1 ≤ m) :
    monthStartDays y (m + 1) = monthStartDays y m + daysInMonth y m := by
  match m, h with
  | (k + 1), _ => rfl

theorem monthStartDays_le_succ (y : Int) (m : Nat) :
    monthStartDays y m ≤ monthStartDays y (m + 1) := by
  match m with
  | 0 => simp [monthStartDays]
  | (k + 1) => rw [monthStartDays_succ y (k + 1) (by omega)]; omega

theorem monthStartDays_mono (y : Int) {m m' : Nat} (h : m ≤ m') :
    monthStartDays y m ≤ monthStartDays y m' := by
  induction m', h using Nat.le_induction with
  | base => exact le_refl _
  | succ n hn ih => exact le_trans ih (monthStartDays_le_succ y n)

theorem isLeap_iff (y : Int) :
    isLeap y = true ↔ ((y % 4 = 0 ∧ ¬ y % 100 = 0) ∨ y % 400 = 0) := by
  simp [isLeap]

theorem monthStartDays_year (y : Int) :
    monthStartDays y 13 = if isLeap y then 366 else 365 := by
  by_cases h : isLeap y = true
  · simp only [h, if_true]
    simp [monthStartDays, daysInMonth, h]
  · simp only [h, if_false]
    simp [monthStartDays, daysInMonth, h]

theorem yearStartDay_succ (y : Int) :
    yearStartDay (y + 1) = yearStartDay y + (monthStartDays y 13 : Int) := by
  rw [monthStartDays_year]
  by_cases h : isLeap y = true
  · have h' := (isLeap_iff y).mp h
    simp only [h, if_true]
    simp only [yearStartDay, leapsBefore]
    push_cast
    omega
  · rw [Bool.not_eq_true] at h
    have h' : ¬ ((y % 4 = 0 ∧ ¬ y % 100 = 0) ∨ y % 400 = 0) := by
      rw [← isLeap_iff, h]; simp
    simp only [h, Bool.false_eq_true, if_false]
    simp only [yearStartDay, leapsBefore]
    push_cast
    omega

theorem yearStartDay_mono {a b : Int} (h : a ≤ b) :
    yearStartDay a ≤ yearStartDay b := by
  simp only [yearStartDay, leapsBefore]
  omega

/-- A valid JavaScript `Date` (non-`NaN`), represented by its normalized
local wall-clock fields.  The range invariants are those of the
decomposition of an ECMA-262 time value into calendar fields. -/
structure JSDate where
  year : Int
  month : Nat
  day : Nat
  hour : Nat
  minute : Nat
  second : Nat
  msec : Nat
  month_ge : 1 ≤ month
  month_le : month ≤ 12
  day_ge : 1 ≤ day
  day_le : day ≤ daysInMonth year month
  hour_lt : hour < 24
  minute_lt : minute < 60
  second_lt : second < 60
  msec_lt : msec < 1000

theorem JSDate.ext1 (a b : JSDate)
    (h1 : a.year = b.year) (h2 : a.month = b.month) (h3 : a.day = b.day)
    (h4 : a.hour = b.hour) (h5 : a.minute = b.minute) (h6 : a.second = b.second)
    (h7 : a.msec = b.msec) : a = b := by
  cases a
  cases b
  simp only at h1 h2 h3 h4 h5 h6 h7
  subst h1; subst h2; subst h3; subst h4; subst h5; subst h6; subst h7
  rfl

instance : DecidableEq JSDate := fun a b =>
  decidable_of_iff
    (a.year = b.year ∧ a.month = b.month ∧ a.day = b.day ∧ a.hour = b.hour ∧
      a.minute = b.minute ∧ a.second = b.second ∧ a.msec = b.msec)
    (by
      constructor
      · rintro ⟨h1, h2, h3, h4, h5, h6, h7⟩
        exact JSDate.ext1 a b h1 h2 h3 h4 h5 h6 h7
      · rintro rfl
        exact ⟨rfl, rfl, rfl, rfl, rfl, rfl, rfl⟩)

/-- The ECMA-262 time value of a `JSDate` (`Date.prototype.getTime`):
milliseconds since the epoch, recomputed from the wall-clock fields. -/
def getTime (d : JSDate) : Int :=
  daysFromCivilRaw d.year d.month (d.day : Int) * 86400000 +
    (((d.hour : Int) * 3600 + (d.minute : Int) * 60 + (d.second : Int)) * 1000 +
      (d.msec : Int))

/-- Fuel-indexed backward month/day rollover: while `day < 1`, step to the
previous month and add its length.  The fuel is a structural-recursion
bound; `(1 - d).toNat` steps always suffice. -/
def normDownF : Nat → Int → Nat → Int → Int × Nat × Int
  | 0, y, m, d => (y, m, d)
  | (fuel + 1), y, m, d =>
    if d < 1 then
      if m = 1 then normDownF fuel (y - 1) 12 (d + 31)
      else normDownF fuel y (m - 1) (d + (daysInMonth y (m - 1) : Int))
    else (y, m, d)

/-- Fuel-indexed forward month/day rollover: while `day` exceeds the month
length, subtract it and step to the next month.  `d.toNat` steps always
suffice. -/
def normUpF : Nat → Int → Nat → Int → Int × Nat × Int
  | 0, y, m, d => (y, m, d)
  | (fuel + 1), y, m, d =>
    if (daysInMonth y m : Int) < d then
      if m = 12 then normUpF fuel (y + 1) 1 (d - 31)
      else normUpF fuel y (m + 1) (d - (daysInMonth y m : Int))
    else (y, m, d)

/-- Month/day normalization of an out-of-range date component, i.e. the
calendar-field decomposition of the day number `daysFromCivilRaw y m d`. -/
def normMD (y : Int) (m : Nat) (d : Int) : Int × Nat × Int :=
  let r := normDownF (1 - d).toNat y m d
  normUpF r.2.2.toNat r.1 r.2.1 r.2.2

theorem daysFromCivilRaw_month_step (y : Int) (m : Nat) (d : Int) (h1 : 1 ≤ m) :
    daysFromCivilRaw y (m + 1) (d - (daysInMonth y m : Int)) =
      daysFromCivilRaw y m d := by
  simp only [daysFromCivilRaw, monthStartDays_succ y m h1]
  push_cast
  ring

theorem daysFromCivilRaw_year_step (y : Int) (d : Int) :
    daysFromCivilRaw (y + 1) 1 (d - 31) = daysFromCivilRaw y 12 d := by
  have h13 : monthStartDays y 13 = monthStartDays y 12 + daysInMonth y 12 :=
    monthStartDays_succ y 12 (by omega)
  have hd12 : daysInMonth y 12 = 31 := rfl
  rw [hd12] at h13
  simp only [daysFromCivilRaw, yearStartDay_succ y, h13]
  have h1 : monthStartDays (y + 1) 1 = 0 := rfl
  rw [h1]
  push_cast
  ring

theorem normDownF_spec (fuel : Nat) :
    ∀ (y : Int) (m : Nat) (d : Int), 1 ≤ m → m ≤ 12 → 1 - d ≤ (fuel : Int) →
    let r := normDownF fuel y m d
    1 ≤ r.2.1 ∧ r.2.1 ≤ 12 ∧ 1 ≤ r.2.2 ∧
      daysFromCivilRaw r.1 r.2.1 r.2.2 = daysFromCivilRaw y m d := by
  induction fuel with
  | zero =>
    intro y m d hm1 hm2 hf
    simp only [normDownF]
    refine ⟨hm1, hm2, by omega, by trivial⟩
  | succ fuel ih =>
    intro y m d hm1 hm2 hf
    simp only [normDownF]
    by_cases hd : d < 1
    · simp only [if_pos hd]
      by_cases hm : m = 1
      · simp only [if_pos hm]
        have h28 := daysInMonth_ge (y - 1) 12
        have h31 := daysInMonth_le (y - 1) 12
        have hrec := ih (y - 1) 12 (d + 31) (by omega) (by omega) (by omega)
        refine ⟨hrec.1, hrec.2.1, hrec.2.2.1, ?_⟩
        rw [hrec.2.2.2]
        have hys := daysFromCivilRaw_year_step (y - 1) (d + 31)
        simp only [show y - 1 + 1 = y from by ring,
          show d + 31 - 31 = d from by ring] at hys
        rw [hm]
        exact hys.symm
      · simp only [if_neg hm]
        have h28 := daysInMonth_ge y (m - 1)
        have hrec := ih y (m - 1) (d + (daysInMonth y (m - 1) : Int))
          (by omega) (by omega) (by omega)
        refine ⟨hrec.1, hrec.2.1, hrec.2.2.1, ?_⟩
        rw [hrec.2.2.2]
        have hstep := daysFromCivilRaw_month_step y (m - 1)
          (d + (daysInMonth y (m - 1) : Int)) (by omega)
        simp only [show m - 1 + 1 = m from by omega,
          show d + (daysInMonth y (m - 1) : Int) - (daysInMonth y (m - 1) : Int) = d
            from by ring] at hstep
        exact hstep.symm
    · simp only [if_neg hd]
      exact ⟨hm1, hm2, by omega, by trivial⟩

theorem normUpF_spec (fuel : Nat) :
    ∀ (y : Int) (m : Nat) (d : Int), 1 ≤ m → m ≤ 12 → 1 ≤ d →
    d ≤ (fuel : Int) + (daysInMonth y m : Int) →
    let r := normUpF fuel y m d
    1 ≤ r.2.1 ∧ r.2.1 ≤ 12 ∧ 1 ≤ r.2.2 ∧
      r.2.2 ≤ (daysInMonth r.1 r.2.1 : Int) ∧
      daysFromCivilRaw r.1 r.2.1 r.2.2 = daysFromCivilRaw y m d := by
  induction fuel with
  | zero =>
    intro y m d hm1 hm2 hd1 hf
    simp only [normUpF]
    exact ⟨hm1, hm2, hd1, by omega, by trivial⟩
  | succ fuel ih =>
    intro y m d hm1 hm2 hd1 hf
    simp only [normUpF]
    by_cases hd : (daysInMonth y m : Int) < d
    · simp only [if_pos hd]
      by_cases hm : m = 12
      · simp only [if_pos hm]
        have h28 := daysInMonth_ge y m
        have h31 := daysInMonth_le y m
        have h28' := daysInMonth_ge (y + 1) 1
        subst hm
        have hdm : (daysInMonth y 12 : Int) = 31 := by norm_num [daysInMonth]
        have hrec := ih (y + 1) 1 (d - 31) (by omega) (by omega) (by omega)
          (by omega)
        refine ⟨hrec.1, hrec.2.1, hrec.2.2.1, hrec.2.2.2.1, ?_⟩
        rw [hrec.2.2.2.2]
        exact daysFromCivilRaw_year_step y d
      · simp only [if_neg hm]
        have h28 := daysInMonth_ge y m
        have h28' := daysInMonth_ge y (m + 1)
        have hrec := ih y (m + 1) (d - (daysInMonth y m : Int))
          (by omega) (by omega) (by omega) (by omega)
        refine ⟨hrec.1, hrec.2.1, hrec.2.2.1, hrec.2.2.2.1, ?_⟩
        rw [hrec.2.2.2.2]
        exact daysFromCivilRaw_month_step y m d hm1
    · simp only [if_neg hd]
      exact ⟨hm1, hm2, hd1, by omega, by trivial⟩

theorem normMD_spec (y : Int) (m : Nat) (d : Int) (hm1 : 1 ≤ m) (hm2 : m ≤ 12) :
    let r := normMD y m d
    1 ≤ r.2.1 ∧ r.2.1 ≤ 12 ∧ 1 ≤ r.2.2 ∧
      r.2.2 ≤ (daysInMonth r.1 r.2.1 : Int) ∧
      daysFromCivilRaw r.1 r.2.1 r.2.2 = daysFromCivilRaw y m d := by
  have hdown := normDownF_spec (1 - d).toNat y m d hm1 hm2 (by omega)
  set r1 := normDownF (1 - d).toNat y m d with hr1
  have hup := normUpF_spec r1.2.2.toNat r1.1 r1.2.1 r1.2.2 hdown.1 hdown.2.1
    hdown.2.2.1 (by have := daysInMonth_ge r1.1 r1.2.1; omega)
  simp only [normMD, ← hr1]
  refine ⟨hup.1, hup.2.1, hup.2.2.1, hup.2.2.2.1, ?_⟩
  rw [hup.2.2.2.2, hdown.2.2.2]

theorem normDownF_noop (fuel : Nat) (y : Int) (m : Nat) (d : Int) (h : 1 ≤ d) :
    normDownF fuel y m d = (y, m, d) := by
  cases fuel with
  | zero => rfl
  | succ fuel => simp only [normDownF, if_neg (by omega : ¬ d < 1)]

theorem normUpF_noop (fuel : Nat) (y : Int) (m : Nat) (d : Int)
    (h : d ≤ (daysInMonth y m : Int)) : normUpF fuel y m d = (y, m, d) := by
  cases fuel with
  | zero => rfl
  | succ fuel => simp only [normUpF, if_neg (by omega : ¬ (daysInMonth y m : Int) < d)]

theorem normMD_noop (y : Int) (m : Nat) (d : Int) (h1 : 1 ≤ d)
    (h2 : d ≤ (daysInMonth y m : Int)) : normMD y m d = (y, m, d) := by
  simp only [normMD, normDownF_noop _ y m d h1]
  exact normUpF_noop _ y m d h2

/-- Builds the normalized `JSDate` from a month-anchored raw day component
and a time-of-day in seconds (both already reduced as in ECMA-262 MakeDay /
MakeTime). -/
def mkJSDateAux (ym : Int) (mn : Nat) (dr tod : Int)
    (hmn1 : 1 ≤ mn) (hmn2 : mn ≤ 12) (htod1 : 0 ≤ tod) (htod2 : tod < 86400) :
    JSDate :=
  { year := (normMD ym mn dr).1
    month := (normMD ym mn dr).2.1
    day := (normMD ym mn dr).2.2.toNat
    hour := (tod / 3600).toNat
    minute := ((tod % 3600) / 60).toNat
    second := (tod % 60).toNat
    msec := 0
    month_ge := (normMD_spec ym mn dr hmn1 hmn2).1
    month_le := (normMD_spec ym mn dr hmn1 hmn2).2.1
    day_ge := by
      have h := (normMD_spec ym mn dr hmn1 hmn2).2.2.1
      omega
    day_le := by
      have h1 := (normMD_spec ym mn dr hmn1 hmn2).2.2.1
      have h2 := (normMD_spec ym mn dr hmn1 hmn2).2.2.2.1
      omega
    hour_lt := by omega
    minute_lt := by omega
    second_lt := by omega
    msec_lt := by omega }

/-- ECMA-262 MakeFullYear, the two-digit-year legacy rule of the `Date`
constructor: year arguments 0..99 denote 1900..1999; all other year
arguments denote themselves. -/
def makeFullYear (y : Int) : Int := if 0 ≤ y ∧ y ≤ 99 then 1900 + y else y

/-- The ECMA-262 constructor `new Date(y, mon, d, h, mi, s)` with `mon`
0-based, as used at lines 127-143 of the route handler: the year argument
first passes through `makeFullYear` (0..99 denote 1900..1999), every
component rolls over into the next larger unit, and the result is invalid
(`NaN`, modelled as `none`) exactly when the time value exceeds 8.64e15 ms
in absolute value (TimeClip).  `isNaN(date.getTime())` in the source
corresponds to this function returning `none`. -/
def mkJSDate (y mon d h mi s : Int) : Option JSDate :=
  if 8640000000000000 <
      (daysFromCivilRaw (makeFullYear y + mon / 12) ((mon % 12).toNat + 1)
          (d + (h * 3600 + mi * 60 + s) / 86400) * 86400000 +
        ((h * 3600 + mi * 60 + s) % 86400) * 1000).natAbs
  then none
  else some (mkJSDateAux (makeFullYear y + mon / 12) ((mon % 12).toNat + 1)
    (d + (h * 3600 + mi * 60 + s) / 86400) ((h * 3600 + mi * 60 + s) % 86400)
    (by omega) (by omega) (by omega) (by omega))

theorem dayNumber_nonneg_inYear (y : Int) (m : Nat) (d : Nat)
    (hm1 : 1 ≤ m) (hm2 : m ≤ 12) (hd1 : 1 ≤ d) (hd2 : d ≤ daysInMonth y m) :
    yearStartDay y ≤ daysFromCivilRaw y m (d : Int) ∧
      daysFromCivilRaw y m (d : Int) < yearStartDay y + (monthStartDays y 13 : Int) := by
  have hmsd : monthStartDays y m + daysInMonth y m = monthStartDays y (m + 1) :=
    (monthStartDays_succ y m hm1).symm
  have hmono : monthStartDays y (m + 1) ≤ monthStartDays y 13 :=
    monthStartDays_mono y (by omega)
  simp only [daysFromCivilRaw]
  omega

theorem daysFromCivilRaw_lt_of_year_lt (y1 : Int) (m1 : Nat) (d1 : Nat)
    (y2 : Int) (m2 : Nat) (d2 : Nat)
    (hm1a : 1 ≤ m1) (hm1b : m1 ≤ 12) (hd1a : 1 ≤ d1) (hd1b : d1 ≤ daysInMonth y1 m1)
    (hm2a : 1 ≤ m2) (hm2b : m2 ≤ 12) (hd2a : 1 ≤ d2) (hd2b : d2 ≤ daysInMonth y2 m2)
    (hy : y1 < y2) :
    daysFromCivilRaw y1 m1 (d1 : Int) < daysFromCivilRaw y2 m2 (d2 : Int) := by
  have h1 := dayNumber_nonneg_inYear y1 m1 d1 hm1a hm1b hd1a hd1b
  have h2 := dayNumber_nonneg_inYear y2 m2 d2 hm2a hm2b hd2a hd2b
  have hstep := yearStartDay_succ y1
  have hmono := yearStartDay_mono (show y1 + 1 ≤ y2 from by omega)
  omega

theorem daysFromCivilRaw_lt_of_month_lt (y : Int) (m1 : Nat) (d1 : Nat)
    (m2 : Nat) (d2 : Nat)
    (hm1a : 1 ≤ m1) (hd1b : d1 ≤ daysInMonth y m1) (hd2a : 1 ≤ d2)
    (hm : m1 < m2) :
    daysFromCivilRaw y m1 (d1 : Int) < daysFromCivilRaw y m2 (d2 : Int) := by
  have hmsd : monthStartDays y m1 + daysInMonth y m1 = monthStartDays y (m1 + 1) :=
    (monthStartDays_succ y m1 hm1a).symm
  have hmono : monthStartDays y (m1 + 1) ≤ monthStartDays y m2 :=
    monthStartDays_mono y (by omega)
  simp only [daysFromCivilRaw]
  omega

theorem daysFromCivilRaw_inj (y1 : Int) (m1 : Nat) (d1 : Nat)
    (y2 : Int) (m2 : Nat) (d2 : Nat)
    (hm1a : 1 ≤ m1) (hm1b : m1 ≤ 12) (hd1a : 1 ≤ d1) (hd1b : d1 ≤ daysInMonth y1 m1)
    (hm2a : 1 ≤ m2) (hm2b : m2 ≤ 12) (hd2a : 1 ≤ d2) (hd2b : d2 ≤ daysInMonth y2 m2)
    (heq : daysFromCivilRaw y1 m1 (d1 : Int) = daysFromCivilRaw y2 m2 (d2 : Int)) :
    y1 = y2 ∧ m1 = m2 ∧ d1 = d2 := by
  rcases lt_trichotomy y1 y2 with hy | hy | hy
  · exact absurd heq (ne_of_lt (daysFromCivilRaw_lt_of_year_lt y1 m1 d1 y2 m2 d2
      hm1a hm1b hd1a hd1b hm2a hm2b hd2a hd2b hy))
  · subst hy
    rcases lt_trichotomy m1 m2 with hm | hm | hm
    · exact absurd heq (ne_of_lt (daysFromCivilRaw_lt_of_month_lt y1 m1 d1 m2 d2
        hm1a hd1b hd2a hm))
    · subst hm
      refine ⟨rfl, rfl, ?_⟩
      simp only [daysFromCivilRaw] at heq
      omega
    · exact absurd heq.symm (ne_of_lt (daysFromCivilRaw_lt_of_month_lt y1 m2 d2 m1 d1
        hm2a hd2b hd1a hm))
  · exact absurd heq.symm (ne_of_lt (daysFromCivilRaw_lt_of_year_lt y2 m2 d2 y1 m1 d1
      hm2a hm2b hd2a hd2b hm1a hm1b hd1a hd1b hy))

/-- Two `Date`s with the same time value have the same wall-clock fields:
the field representation is in bijection with the ECMA time value, so
`getTime`-equality (the comparison the source uses for deduplication and
sorting) coincides with equality of the wall-clock data. -/
theorem getTime_inj (a b : JSDate) (heq : getTime a = getTime b) : a = b := by
  have ha := dayNumber_nonneg_inYear a.year a.month a.day a.month_ge a.month_le
    a.day_ge a.day_le
  have hb := dayNumber_nonneg_inYear b.year b.month b.day b.month_ge b.month_le
    b.day_ge b.day_le
  have hta : ((a.hour : Int) * 3600 + (a.minute : Int) * 60 + (a.second : Int)) * 1000 +
      (a.msec : Int) < 86400000 := by
    have h1 := a.hour_lt
    have h2 := a.minute_lt
    have h3 := a.second_lt
    have h4 := a.msec_lt
    omega
  have htb : ((b.hour : Int) * 3600 + (b.minute : Int) * 60 + (b.second : Int)) * 1000 +
      (b.msec : Int) < 86400000 := by
    have h1 := b.hour_lt
    have h2 := b.minute_lt
    have h3 := b.second_lt
    have h4 := b.msec_lt
    omega
  have hdays : daysFromCivilRaw a.year a.month (a.day : Int) =
      daysFromCivilRaw b.year b.month (b.day : Int) ∧
      ((a.hour : Int) * 3600 + (a.minute : Int) * 60 + (a.second : Int)) * 1000 +
        (a.msec : Int) =
      ((b.hour : Int) * 3600 + (b.minute : Int) * 60 + (b.second : Int)) * 1000 +
        (b.msec : Int) := by
    simp only [getTime] at heq
    constructor <;> omega
  have hfields := daysFromCivilRaw_inj a.year a.month a.day b.year b.month b.day
    a.month_ge a.month_le a.day_ge a.day_le b.month_ge b.month_le b.day_ge b.day_le
    hdays.1
  have htod := hdays.2
  have h1 := a.hour_lt
  have h2 := a.minute_lt
  have h3 := a.second_lt
  have h4 := a.msec_lt
  have h5 := b.hour_lt
  have h6 := b.minute_lt
  have h7 := b.second_lt
  have h8 := b.msec_lt
  exact JSDate.ext1 a b hfields.1 hfields.2.1 hfields.2.2
    (by omega) (by omega) (by omega) (by omega)

/-- An untrusted input record, per the data model: an arbitrary mapping with
optional string fields.  The source field `end` is a Lean keyword and is
embedded as `endTime`.  A missing field is `none` (JavaScript `undefined`;
in the source, calling `.match` on a missing `start`/`end` throws and the
per-record `catch` skips the record). -/
structure RawEventRecord where
  start : Option String
  endTime : Option String
  title : Option String
  summary : Option String
  description : Option String
  location : Option String
deriving DecidableEq

/-- A canonical event as built by `parseEventsFromJSON` (the source's
`ScheduleEvent` with both dates valid). -/
structure Event where
  start : JSDate
  endTime : JSDate
  title : String
  description : String
  location : String
deriving DecidableEq

/-- Decimal-digit test, the regex character class `\d`. -/
def isDig (c : Char) : Bool := 48 ≤ c.toNat && c.toNat ≤ 57

/-- Numeric value of a decimal digit character (`parseInt` on one digit). -/
def digitVal (c : Char) : Int := (c.toNat : Int) - 48

/-- The strict pattern match
`/^(\d{4})-(\d{2})-(\d{2})T(\d{2}):(\d{2}):(\d{2})/` of lines 106-107:
an (unanchored-at-the-end) prefix match returning the six captured numbers
(`parseInt` of the captured digit strings). -/
def strictMatch (s : String) : Option (Int × Int × Int × Int × Int × Int) :=
  match s.data with
  | c1 :: c2 :: c3 :: c4 :: '-' :: c5 :: c6 :: '-' :: c7 :: c8 :: 'T' ::
      c9 :: c10 :: ':' :: c11 :: c12 :: ':' :: c13 :: c14 :: _ =>
    if isDig c1 && isDig c2 && isDig c3 && isDig c4 && isDig c5 && isDig c6 &&
        isDig c7 && isDig c8 && isDig c9 && isDig c10 && isDig c11 &&
        isDig c12 && isDig c13 && isDig c14 then
      some (digitVal c1 * 1000 + digitVal c2 * 100 + digitVal c3 * 10 + digitVal c4,
            digitVal c5 * 10 + digitVal c6,
            digitVal c7 * 10 + digitVal c8,
            digitVal c9 * 10 + digitVal c10,
            digitVal c11 * 10 + digitVal c12,
            digitVal c13 * 10 + digitVal c14)
    else none
  | _ => none

/-- JavaScript `a || b` on a possibly-missing string: `undefined` and the
empty string are falsy. -/
def jsOrStr : Option String → String → String
  | some s, dflt => if s = "" then dflt else s
  | none, dflt => dflt

/-- The event constructed at lines 116-122 / 149-155 once both dates exist. -/
def mkEvent (sd ed : JSDate) (r : RawEventRecord) : Event :=
  { start := sd
    endTime := ed
    title := jsOrStr r.title (jsOrStr r.summary "Work Schedule")
    description := jsOrStr r.description ""
    location := jsOrStr r.location "" }

/-- Date parsing of one record's `start`/`end` strings (lines 106-147).  If
both strings match the strict pattern, both dates are built from the
captured components via the local-fields constructor; otherwise BOTH fall
back to generic `new Date(string)` parsing, which is implementation-defined
and is abstracted as the parameter `fb` (returning `none` when the result
is `NaN`, which the source detects with `isNaN`). -/
def parsePair (fb : String → Option JSDate) (ss es : String) :
    Option (JSDate × JSDate) :=
  match strictMatch ss, strictMatch es with
  | some (y1, mo1, d1, h1, mi1, s1), some (y2, mo2, d2, h2, mi2, s2) =>
    match mkJSDate y1 (mo1 - 1) d1 h1 mi1 s1, mkJSDate y2 (mo2 - 1) d2 h2 mi2 s2 with
    | some sd, some ed => some (sd, ed)
    | _, _ => none
  | _, _ =>
    match fb ss, fb es with
    | some sd, some ed => some (sd, ed)
    | _, _ => none

/-- Processing of one raw record: `none` means the record is skipped
(`continue`, or the per-record `catch` when `start`/`end` is missing). -/
def parseRecord (fb : String → Option JSDate) (r : RawEventRecord) :
    Option Event :=
  match r.start, r.endTime with
  | some ss, some es => (parsePair fb ss es).map (fun p => mkEvent p.1 p.2 r)
  | _, _ => none

/-- The normalizer `parseEventsFromJSON` (lines 95-162): the for-loop over
records, appending an event per successfully parsed record and skipping the
rest. -/
def parseEventsFromJSON (fb : String → Option JSDate) :
    List RawEventRecord → List Event
  | [] => []
  | r :: rest =>
    match parseRecord fb r with
    | none => parseEventsFromJSON fb rest
    | some e => e :: parseEventsFromJSON fb rest

theorem isDig_bounds (c : Char) (h : isDig c = true) :
    48 ≤ c.toNat ∧ c.toNat ≤ 57 := by
  simp only [isDig, Bool.and_eq_true, decide_eq_true_eq] at h
  exact h

theorem strictMatch_bounds (s : String) (y mo d h mi sec : Int)
    (hm : strictMatch s = some (y, mo, d, h, mi, sec)) :
    0 ≤ y ∧ y ≤ 9999 ∧ 0 ≤ mo ∧ mo ≤ 99 ∧ 0 ≤ d ∧ d ≤ 99 ∧
      0 ≤ h ∧ h ≤ 99 ∧ 0 ≤ mi ∧ mi ≤ 99 ∧ 0 ≤ sec ∧ sec ≤ 99 := by
  unfold strictMatch at hm
  split at hm
  · split at hm
    · rename_i hdig
      simp only [Bool.and_eq_true] at hdig
      obtain ⟨⟨⟨⟨⟨⟨⟨⟨⟨⟨⟨⟨⟨hd1, hd2⟩, hd3⟩, hd4⟩, hd5⟩, hd6⟩, hd7⟩, hd8⟩,
        hd9⟩, hd10⟩, hd11⟩, hd12⟩, hd13⟩, hd14⟩ := hdig
      have b1 := isDig_bounds _ hd1
      have b2 := isDig_bounds _ hd2
      have b3 := isDig_bounds _ hd3
      have b4 := isDig_bounds _ hd4
      have b5 := isDig_bounds _ hd5
      have b6 := isDig_bounds _ hd6
      have b7 := isDig_bounds _ hd7
      have b8 := isDig_bounds _ hd8
      have b9 := isDig_bounds _ hd9
      have b10 := isDig_bounds _ hd10
      have b11 := isDig_bounds _ hd11
      have b12 := isDig_bounds _ hd12
      have b13 := isDig_bounds _ hd13
      have b14 := isDig_bounds _ hd14
      simp only [Option.some.injEq, Prod.mk.injEq] at hm
      obtain ⟨hy, hmo, hd, hh, hmi, hsec⟩ := hm
      simp only [digitVal] at hy hmo hd hh hmi hsec
      subst hy; subst hmo; subst hd; subst hh; subst hmi; subst hsec
      omega
    · exact absurd hm (by simp)
  · exact absurd hm (by simp)

theorem monthStartDays_le_366 (y : Int) (m : Nat) (hm : m ≤ 13) :
    monthStartDays y m ≤ 366 := by
  have hmono := monthStartDays_mono y hm
  have h13 := monthStartDays_year y
  by_cases h : isLeap y = true
  · simp only [h, if_true] at h13
    omega
  · rw [Bool.not_eq_true] at h
    simp only [h, Bool.false_eq_true, if_false] at h13
    omega

/-- For years in the 4-digit range the raw day number is a few million at
most, far inside the `TimeClip` range. -/
theorem daysFromCivilRaw_range (y : Int) (m : Nat) (d : Int)
    (hy1 : 0 ≤ y) (hy2 : y ≤ 9999) (hm : m ≤ 13) (hd1 : 0 ≤ d) (hd2 : d ≤ 99) :
    daysFromCivilRaw y m d ≤ 4000000 ∧ -1000000 ≤ daysFromCivilRaw y m d := by
  have hmsd := monthStartDays_le_366 y m hm
  simp only [daysFromCivilRaw, yearStartDay, leapsBefore]
  omega

/-- Components that (after the `makeFullYear` remap of the year argument)
form a valid calendar date/time pass through the `Date` constructor with no
rollover: `new Date(y, mo-1, d, h, mi, s)` has exactly the given wall-clock
fields, except that the year field is `makeFullYear y`. -/
theorem mkJSDate_strict (y mo d h mi s : Int)
    (hy1 : 0 ≤ y) (hy2 : y ≤ 9999)
    (hmo1 : 1 ≤ mo) (hmo2 : mo ≤ 12)
    (hd1 : 1 ≤ d) (hd2 : d ≤ (daysInMonth (makeFullYear y) mo.toNat : Int))
    (hh1 : 0 ≤ h) (hh2 : h ≤ 23) (hmi1 : 0 ≤ mi) (hmi2 : mi ≤ 59)
    (hs1 : 0 ≤ s) (hs2 : s ≤ 59) :
    ∃ dd, mkJSDate y (mo - 1) d h mi s = some dd ∧
      dd.year = makeFullYear y ∧ (dd.month : Int) = mo ∧ (dd.day : Int) = d ∧
      (dd.hour : Int) = h ∧ (dd.minute : Int) = mi ∧ (dd.second : Int) = s ∧
      dd.msec = 0 := by
  have hyf1 : 0 ≤ makeFullYear y := by unfold makeFullYear; split <;> omega
  have hyf2 : makeFullYear y ≤ 9999 := by unfold makeFullYear; split <;> omega
  have e1 : makeFullYear y + (mo - 1) / 12 = makeFullYear y := by omega
  have e2 : ((mo - 1) % 12).toNat + 1 = mo.toNat := by omega
  have e3 : (h * 3600 + mi * 60 + s) / 86400 = 0 := by omega
  have e4 : (h * 3600 + mi * 60 + s) % 86400 = h * 3600 + mi * 60 + s := by omega
  have hdm31 : daysInMonth (makeFullYear y) mo.toNat ≤ 31 :=
    daysInMonth_le (makeFullYear y) mo.toNat
  have hrange := daysFromCivilRaw_range (makeFullYear y) mo.toNat d hyf1 hyf2
    (by omega) (by omega) (by omega)
  have hb : ¬ (8640000000000000 <
      (daysFromCivilRaw (makeFullYear y) mo.toNat (d + 0) * 86400000 +
        (h * 3600 + mi * 60 + s) * 1000).natAbs) := by
    have hd0 : d + 0 = d := by ring
    rw [hd0]
    omega
  simp only [mkJSDate, e1, e2, e3, e4]
  rw [if_neg hb]
  have hnoop : normMD (makeFullYear y) mo.toNat d = (makeFullYear y, mo.toNat, d) :=
    normMD_noop (makeFullYear y) mo.toNat d (by omega) (by omega)
  refine ⟨_, rfl, ?_, ?_, ?_, ?_, ?_, ?_, ?_⟩ <;>
    simp [mkJSDateAux, hnoop] <;> omega

/-- Captured components that form a valid calendar date/time (month within
1..12, day within the month, time fields in range). -/
def validComponents (y mo d h mi s : Int) : Prop :=
  1 ≤ mo ∧ mo ≤ 12 ∧ 1 ≤ d ∧ d ≤ (daysInMonth y mo.toNat : Int) ∧
    0 ≤ h ∧ h ≤ 23 ∧ 0 ≤ mi ∧ mi ≤ 59 ∧ 0 ≤ s ∧ s ≤ 59

instance (y mo d h mi s : Int) : Decidable (validComponents y mo d h mi s) := by
  unfold validComponents
  infer_instance

/-- Record used to refute C1 as literally stated: both timestamp strings
match the strict pattern, but February 30 is not a calendar date. -/
def rollRecord : RawEventRecord :=
  { start := some "2026-02-30T10:00:00"
    endTime := some "2026-02-30T11:00:00"
    title := none
    summary := none
    description := none
    location := none }

/-- The example record of the specification. -/
def exampleRecord : RawEventRecord :=
  { start := some "2026-01-10T15:00:00"
    endTime := some "2026-01-10T22:00:00"
    title := some "Coverage"
    summary := none
    description := none
    location := none }

/-- A record whose strictly-matching timestamps carry a captured year in
the two-digit band 0..99, which `new Date` remaps to 1900..1999. -/
def year99Record : RawEventRecord :=
  { start := some "0099-01-10T15:00:00"
    endTime := some "0099-01-10T22:00:00"
    title := none
    summary := none
    description := none
    location := none }

/-- C1, counterexample to the claim as stated, on two independent inputs:
the record `rollRecord` has `start` matching the strict pattern with
captured components (2026, 2, 30, 10, 0, 0), yet the produced Event's
wall-clock date fields are (2026, 3, 2) — `new Date` rolls the
out-of-range day over into March; and the record `year99Record` captures
year 99, yet the produced Event's year field is 1999 — `new Date` maps
year arguments 0..99 to 1900..1999 (MakeFullYear). -/
theorem claim1_counterexample :
    strictMatch "2026-02-30T10:00:00" = some (2026, 2, 30, 10, 0, 0) ∧
    (parseEventsFromJSON (fun _ => none) [rollRecord]).map
        (fun e => (e.start.year, e.start.month, e.start.day)) = [(2026, 3, 2)] ∧
    ¬ (((2026 : Int), (3 : Nat), (2 : Nat)) = ((2026 : Int), (2 : Nat), (30 : Nat))) ∧
    strictMatch "0099-01-10T15:00:00" = some (99, 1, 10, 15, 0, 0) ∧
    (parseEventsFromJSON (fun _ => none) [year99Record]).map
        (fun e => e.start.year) = [1999] ∧
    ¬ ((1999 : Int) = 99) := by
  refine ⟨by decide, by decide, by decide, by decide, by decide, by decide⟩

/-- C1 (amended: restricted to captured components that form a valid
calendar date/time for the effective year, and with the year field given
by the constructor's two-digit-year rule): for every record whose `start`
and `end` strings match the strict pattern `YYYY-MM-DDTHH:MM:SS` with
in-range captured components, the normalizer keeps the record and the
produced Event's wall-clock month, day, hour, minute and second equal the
captured numeric components exactly, while the year equals the captured
year except that captured years 0..99 are mapped to 1900..1999
(`makeFullYear`); any timezone suffix in the string is ignored (the strict
match only reads the leading 19 characters), never converted. -/
theorem claim1_strict_wallclock (fb : String → Option JSDate)
    (r : RawEventRecord) (ss es : String)
    (y1 mo1 d1 h1 mi1 s1 y2 mo2 d2 h2 mi2 s2 : Int)
    (hss : r.start = some ss) (hes : r.endTime = some es)
    (hm1 : strictMatch ss = some (y1, mo1, d1, h1, mi1, s1))
    (hm2 : strictMatch es = some (y2, mo2, d2, h2, mi2, s2))
    (hv1 : validComponents (makeFullYear y1) mo1 d1 h1 mi1 s1)
    (hv2 : validComponents (makeFullYear y2) mo2 d2 h2 mi2 s2) :
    ∃ e, parseRecord fb r = some e ∧
      e.start.year = makeFullYear y1 ∧ (e.start.month : Int) = mo1 ∧
      (e.start.day : Int) = d1 ∧
      (e.start.hour : Int) = h1 ∧ (e.start.minute : Int) = mi1 ∧
      (e.start.second : Int) = s1 ∧
      e.endTime.year = makeFullYear y2 ∧ (e.endTime.month : Int) = mo2 ∧
      (e.endTime.day : Int) = d2 ∧ (e.endTime.hour : Int) = h2 ∧
      (e.endTime.minute : Int) = mi2 ∧ (e.endTime.second : Int) = s2 := by
  have hbnd1 := strictMatch_bounds ss _ _ _ _ _ _ hm1
  have hbnd2 := strictMatch_bounds es _ _ _ _ _ _ hm2
  obtain ⟨hmo1a, hmo1b, hda1, hdb1, hha1, hhb1, hmia1, hmib1, hsa1, hsb1⟩ := hv1
  obtain ⟨hmo2a, hmo2b, hda2, hdb2, hha2, hhb2, hmia2, hmib2, hsa2, hsb2⟩ := hv2
  obtain ⟨dd1, hdd1, g1, g2, g3, g4, g5, g6, _⟩ :=
    mkJSDate_strict y1 mo1 d1 h1 mi1 s1 hbnd1.1 hbnd1.2.1 hmo1a hmo1b hda1 hdb1
      hha1 hhb1 hmia1 hmib1 hsa1 hsb1
  obtain ⟨dd2, hdd2, k1, k2, k3, k4, k5, k6, _⟩ :=
    mkJSDate_strict y2 mo2 d2 h2 mi2 s2 hbnd2.1 hbnd2.2.1 hmo2a hmo2b hda2 hdb2
      hha2 hhb2 hmia2 hmib2 hsa2 hsb2
  obtain ⟨rs, re, rt, rsum, rdesc, rloc⟩ := r
  simp only at hss hes
  subst hss
  subst hes
  refine ⟨mkEvent dd1 dd2 ⟨some ss, some es, rt, rsum, rdesc, rloc⟩, ?_, ?_⟩
  · simp only [parseRecord, parsePair, hm1, hm2, hdd1, hdd2]
    rfl
  · simp only [mkEvent]
    exact ⟨g1, g2, g3, g4, g5, g6, k1, k2, k3, k4, k5, k6⟩

/-- Witness for C1 at the specification's own example input. -/
theorem claim1_witness :
    ∃ e, parseRecord (fun _ => none) exampleRecord = some e ∧
      e.start.year = 2026 ∧ (e.start.month : Int) = 1 ∧ (e.start.day : Int) = 10 ∧
      (e.start.hour : Int) = 15 ∧ (e.start.minute : Int) = 0 ∧
      (e.start.second : Int) = 0 ∧
      e.endTime.year = 2026 ∧ (e.endTime.month : Int) = 1 ∧
      (e.endTime.day : Int) = 10 ∧ (e.endTime.hour : Int) = 22 ∧
      (e.endTime.minute : Int) = 0 ∧ (e.endTime.second : Int) = 0 :=
  claim1_strict_wallclock (fun _ => none) exampleRecord
    "2026-01-10T15:00:00" "2026-01-10T22:00:00"
    2026 1 10 15 0 0 2026 1 10 22 0 0 rfl rfl (by decide) (by decide)
    (by decide) (by decide)

/-- A record whose `start` string is chronologically after its `end`
string; used to exhibit that ordering is not validated. -/
def reversedRecord : RawEventRecord :=
  { start := some "2026-01-10T22:00:00"
    endTime := some "2026-01-10T15:00:00"
    title := none
    summary := none
    description := none
    location := none }

/-- C2: a record yields an Event exactly when both `start` and `end` are
present and the date pair parses (under the strict pattern or the generic
fallback); every kept Event carries valid calendar fields for both
timestamps; and whenever the pair parses to any two dates — with no
constraint relating them — the record is kept with exactly those dates, so
`start` preceding `end` is not validated. -/
theorem claim2_parse_or_drop (fb : String → Option JSDate) (r : RawEventRecord) :
    ((parseRecord fb r).isSome ↔
      ∃ ss es, r.start = some ss ∧ r.endTime = some es ∧
        (parsePair fb ss es).isSome) ∧
    (∀ e, parseRecord fb r = some e →
      (1 ≤ e.start.month ∧ e.start.month ≤ 12 ∧ 1 ≤ e.start.day ∧
        e.start.day ≤ daysInMonth e.start.year e.start.month ∧
        e.start.hour < 24 ∧ e.start.minute < 60 ∧ e.start.second < 60) ∧
      (1 ≤ e.endTime.month ∧ e.endTime.month ≤ 12 ∧ 1 ≤ e.endTime.day ∧
        e.endTime.day ≤ daysInMonth e.endTime.year e.endTime.month ∧
        e.endTime.hour < 24 ∧ e.endTime.minute < 60 ∧ e.endTime.second < 60)) ∧
    (∀ ss es sd ed, r.start = some ss → r.endTime = some es →
      parsePair fb ss es = some (sd, ed) →
      parseRecord fb r = some (mkEvent sd ed r)) := by
  refine ⟨?_, ?_, ?_⟩
  · obtain ⟨rs, re, rt, rsum, rdesc, rloc⟩ := r
    cases rs with
    | none => simp [parseRecord]
    | some ss =>
      cases re with
      | none => simp [parseRecord]
      | some es =>
        simp [parseRecord]
  · intro e _
    exact ⟨⟨e.start.month_ge, e.start.month_le, e.start.day_ge, e.start.day_le,
      e.start.hour_lt, e.start.minute_lt, e.start.second_lt⟩,
      ⟨e.endTime.month_ge, e.endTime.month_le, e.endTime.day_ge, e.endTime.day_le,
      e.endTime.hour_lt, e.endTime.minute_lt, e.endTime.second_lt⟩⟩
  · intro ss es sd ed hss hes hp
    obtain ⟨rs, re, rt, rsum, rdesc, rloc⟩ := r
    simp only at hss hes
    subst hss
    subst hes
    simp only [parseRecord, hp, Option.map_some']

/-- The date 2026-01-10 22:00:00 (local). -/
def date22 : JSDate :=
  { year := 2026, month := 1, day := 10, hour := 22, minute := 0, second := 0
    msec := 0
    month_ge := by decide
    month_le := by decide
    day_ge := by decide
    day_le := by decide
    hour_lt := by decide
    minute_lt := by decide
    second_lt := by decide
    msec_lt := by decide }

/-- The date 2026-01-10 15:00:00 (local). -/
def date15 : JSDate :=
  { year := 2026, month := 1, day := 10, hour := 15, minute := 0, second := 0
    msec := 0
    month_ge := by decide
    month_le := by decide
    day_ge := by decide
    day_le := by decide
    hour_lt := by decide
    minute_lt := by decide
    second_lt := by decide
    msec_lt := by decide }

/-- Witness for C2 at a record whose `start` (22:00) is after its `end`
(15:00): the record is kept — ordering is passed through, not validated. -/
theorem claim2_witness :
    parseRecord (fun _ => none) reversedRecord =
      some (mkEvent date22 date15 reversedRecord) :=
  (claim2_parse_or_drop (fun _ => none) reversedRecord).2.2
    "2026-01-10T22:00:00" "2026-01-10T15:00:00" date22 date15 rfl rfl (by decide)

/-- C7: the normalizer is the per-record parse mapped over the batch in
input order, skipping (without any error value) exactly the records whose
dates fail to parse: a batch yields exactly as many Events as it has
parseable records, in input order. -/
theorem claim7_invalid_records_dropped (fb : String → Option JSDate)
    (l : List RawEventRecord) :
    parseEventsFromJSON fb l = l.filterMap (parseRecord fb) ∧
    (parseEventsFromJSON fb l).length =
      (l.filter (fun r => (parseRecord fb r).isSome)).length := by
  induction l with
  | nil => exact ⟨rfl, rfl⟩
  | cons r rest ih =>
    cases h : parseRecord fb r with
    | none =>
      refine ⟨?_, ?_⟩
      · simp only [parseEventsFromJSON, h, List.filterMap_cons, ih.1]
      · simp only [parseEventsFromJSON, h, List.filter_cons, Option.isSome_none,
          Bool.false_eq_true, if_false, ih.2]
    | some e =>
      refine ⟨?_, ?_⟩
      · simp only [parseEventsFromJSON, h, List.filterMap_cons, ih.1]
      · simp only [parseEventsFromJSON, h, List.filter_cons, Option.isSome_some,
          if_true, List.length_cons, ih.2]

/-- The key the source's deduplication compares: both `getTime` values and
the title (lines 340-344). -/
def eventKey (e : Event) : Int × Int × String :=
  (getTime e.start, getTime e.endTime, e.title)

/-- The deduplication predicate of lines 341-343: `e2` is a duplicate of
`e` when both `getTime` values and the titles agree. -/
def dupMatch (e2 e : Event) : Bool :=
  getTime e2.start == getTime e.start && getTime e2.endTime == getTime e.endTime &&
    e2.title == e.title

/-- The `filter((event, index, self) => index === self.findIndex(...))`
idiom of lines 339-345, with the running index made explicit. -/
def uniqueAux (self : List Event) : Nat → List Event → List Event
  | _, [] => []
  | i, e :: rest =>
    if List.findIdx (fun e2 => dupMatch e2 e) self = i then
      e :: uniqueAux self (i + 1) rest
    else uniqueAux self (i + 1) rest

/-- The deduplication of lines 339-345: keep an event exactly when its
index is the first index holding a matching event. -/
def uniqueEvents (l : List Event) : List Event := uniqueAux l 0 l

/-- Identity of `(start, end, title)` triples, as a Boolean. -/
def sameTriple (a b : Event) : Bool :=
  a.start == b.start && a.endTime == b.endTime && a.title == b.title

/-- Modelled from the spec: "an Event is a duplicate of an earlier one if
its `(start, end, title)` triple is identical ... Keep the first occurrence
in arrival order."  First-occurrence deduplication by exact triple
equality, the specification's description of the dedup step. -/
def keepFirstByTriple : List Event → List Event
  | [] => []
  | e :: rest =>
    e :: keepFirstByTriple (rest.filter (fun e2 => !sameTriple e2 e))
termination_by l => l.length
decreasing_by
  simp only [List.length_cons]
  exact Nat.lt_succ_of_le (List.length_filter_le _ _)

theorem dupMatch_iff_key (a b : Event) :
    dupMatch a b = true ↔ eventKey a = eventKey b := by
  simp only [dupMatch, eventKey, Bool.and_eq_true, beq_iff_eq, Prod.mk.injEq]
  tauto

theorem sameTriple_iff (a b : Event) :
    sameTriple a b = true ↔
      (a.start = b.start ∧ a.endTime = b.endTime ∧ a.title = b.title) := by
  simp only [sameTriple, Bool.and_eq_true, beq_iff_eq]
  tauto

/-- The comparison the source uses for deduplication agrees with triple
identity: this is where `getTime` injectivity enters. -/
theorem dupMatch_eq_sameTriple : dupMatch = sameTriple := by
  funext a b
  rw [Bool.eq_iff_iff, dupMatch_iff_key, sameTriple_iff]
  constructor
  · intro h
    simp only [eventKey, Prod.mk.injEq] at h
    exact ⟨getTime_inj _ _ h.1, getTime_inj _ _ h.2.1, h.2.2⟩
  · rintro ⟨h1, h2, h3⟩
    simp only [eventKey, h1, h2, h3]

/-- Variant of `uniqueAux` with the kept-set additionally restricted by a predicate
`P`; the generalization under which the first-occurrence induction goes
through. -/
def uniqueAuxP (self : List Event) (P : Event → Bool) : Nat → List Event → List Event
  | _, [] => []
  | i, e :: rest =>
    if P e = true ∧ List.findIdx (fun e2 => dupMatch e2 e) self = i then
      e :: uniqueAuxP self P (i + 1) rest
    else uniqueAuxP self P (i + 1) rest

theorem uniqueAux_eq_auxP (self : List Event) :
    ∀ (l : List Event) (i : Nat),
    uniqueAux self i l = uniqueAuxP self (fun _ => true) i l := by
  intro l
  induction l with
  | nil => intro i; rfl
  | cons e rest ih =>
    intro i
    simp only [uniqueAux, uniqueAuxP, true_and, ih]

theorem dupMatch_self (e : Event) : dupMatch e e = true := by
  simp [dupMatch]

theorem dupMatch_symm (a b : Event) : dupMatch a b = dupMatch b a := by
  rw [Bool.eq_iff_iff, dupMatch_iff_key, dupMatch_iff_key]
  constructor <;> (intro h; exact h.symm)

theorem dupMatch_congr (y a b : Event) (h : dupMatch a b = true) :
    dupMatch y a = dupMatch y b := by
  rw [Bool.eq_iff_iff, dupMatch_iff_key, dupMatch_iff_key,
    (dupMatch_iff_key a b).mp h]

theorem uniqueAuxP_shift (y : Event) (ys : List Event) (P : Event → Bool) :
    ∀ (rest : List Event) (i : Nat),
    uniqueAuxP (y :: ys) P (i + 1) rest =
      uniqueAuxP ys (fun e => P e && !dupMatch y e) i rest := by
  intro rest
  induction rest with
  | nil => intro i; rfl
  | cons e rest ih =>
    intro i
    simp only [uniqueAuxP, List.findIdx_cons]
    by_cases hd : dupMatch y e = true
    · simp only [hd, cond_true]
      rw [if_neg (by rintro ⟨-, h0⟩; omega)]
      rw [if_neg (by rintro ⟨hb, -⟩; simp at hb)]
      exact ih (i + 1)
    · rw [Bool.not_eq_true] at hd
      simp only [hd, cond_false, Bool.not_false, Bool.and_true]
      by_cases hc : P e = true ∧ List.findIdx (fun e2 => dupMatch e2 e) ys = i
      · rw [if_pos ⟨hc.1, by omega⟩, if_pos hc]
        rw [ih (i + 1)]
      · rw [if_neg (by rintro ⟨h1, h2⟩; exact hc ⟨h1, by omega⟩), if_neg hc]
        exact ih (i + 1)

theorem uniqueAuxP_eq_keepFirst :
    ∀ (l : List Event) (P : Event → Bool),
    (∀ a b, dupMatch a b = true → P a = P b) →
    uniqueAuxP l P 0 l = keepFirstByTriple (l.filter P) := by
  intro l
  induction l with
  | nil =>
    intro P hP
    rw [List.filter_nil]
    simp only [keepFirstByTriple]
    rfl
  | cons y ys ih =>
    intro P hP
    have hfind0 : List.findIdx (fun e2 => dupMatch e2 y) (y :: ys) = 0 := by
      simp [List.findIdx_cons, dupMatch_self]
    by_cases hPy : P y = true
    · have hcond : P y = true ∧ List.findIdx (fun e2 => dupMatch e2 y) (y :: ys) = 0 :=
        ⟨hPy, hfind0⟩
      show (if P y = true ∧ List.findIdx (fun e2 => dupMatch e2 y) (y :: ys) = 0 then
          y :: uniqueAuxP (y :: ys) P (0 + 1) ys
        else uniqueAuxP (y :: ys) P (0 + 1) ys) = _
      rw [if_pos hcond]
      rw [uniqueAuxP_shift]
      have hP' : ∀ a b, dupMatch a b = true →
          (P a && !dupMatch y a) = (P b && !dupMatch y b) := by
        intro a b h
        rw [hP a b h, dupMatch_congr y a b h]
      rw [ih (fun e => P e && !dupMatch y e) hP']
      rw [List.filter_cons_of_pos hPy]
      simp only [keepFirstByTriple]
      rw [List.filter_filter]
      have hpred : (fun a => !sameTriple a y && P a) = (fun e => P e && !dupMatch y e) := by
        funext e
        rw [← dupMatch_eq_sameTriple, Bool.and_comm, dupMatch_symm e y]
      rw [hpred]
    · show (if P y = true ∧ List.findIdx (fun e2 => dupMatch e2 y) (y :: ys) = 0 then
          y :: uniqueAuxP (y :: ys) P (0 + 1) ys
        else uniqueAuxP (y :: ys) P (0 + 1) ys) = _
      rw [if_neg (by rintro ⟨h1, -⟩; exact hPy h1)]
      rw [uniqueAuxP_shift]
      have hPP : (fun e => P e && !dupMatch y e) = P := by
        funext e
        by_cases hPe : P e = true
        · have hdy : dupMatch y e = false := by
            by_contra hcon
            rw [Bool.not_eq_false] at hcon
            rw [hP y e hcon] at hPy
            exact hPy hPe
          rw [hPe, hdy]
          rfl
        · rw [Bool.not_eq_true] at hPe
          rw [hPe]
          rfl
      rw [hPP]
      rw [ih P hP]
      rw [List.filter_cons_of_neg (by rw [Bool.not_eq_true] at hPy; simp [hPy])]

/-- The source's findIndex-based deduplication equals first-occurrence
deduplication by exact `(start, end, title)` identity. -/
theorem uniqueEvents_eq_keepFirst (l : List Event) :
    uniqueEvents l = keepFirstByTriple l := by
  rw [uniqueEvents, uniqueAux_eq_auxP,
    uniqueAuxP_eq_keepFirst l (fun _ => true) (fun a b _ => rfl)]
  congr 1
  exact List.filter_true l

/-- C4: an Event is a duplicate of an earlier one exactly when its
`(start, end, title)` triple is identical to the earlier Event's — the
`getTime`-based comparison the source performs coincides with exact triple
identity — the first occurrence in arrival order is kept, and Events
differing only in `description` or `location` still collapse (the triple
does not mention them). -/
theorem claim4_dedup_by_triple (l : List Event) :
    uniqueEvents l = keepFirstByTriple l :=
  uniqueEvents_eq_keepFirst l

theorem keepFirst_sublist (l : List Event) :
    (keepFirstByTriple l).Sublist l := by
  induction l using keepFirstByTriple.induct with
  | case1 => simp [keepFirstByTriple]
  | case2 e rest ih =>
    simp only [keepFirstByTriple]
    exact (ih.trans (List.filter_sublist rest)).cons₂ e

theorem sameTriple_symm (a b : Event) : sameTriple a b = sameTriple b a := by
  rw [Bool.eq_iff_iff, sameTriple_iff, sameTriple_iff]
  constructor <;> (rintro ⟨h1, h2, h3⟩; exact ⟨h1.symm, h2.symm, h3.symm⟩)

theorem keepFirst_pairwise (l : List Event) :
    List.Pairwise (fun a b => sameTriple a b = false) (keepFirstByTriple l) := by
  induction l using keepFirstByTriple.induct with
  | case1 => simp [keepFirstByTriple]
  | case2 e rest ih =>
    simp only [keepFirstByTriple]
    refine List.Pairwise.cons ?_ ih
    intro b hb
    have hbmem : b ∈ rest.filter (fun e2 => !sameTriple e2 e) :=
      (keepFirst_sublist _).mem hb
    have hpred := List.of_mem_filter hbmem
    simp only [Bool.not_eq_true'] at hpred
    rw [sameTriple_symm]
    exact hpred

/-- The sort comparator of line 348, `(a, b) => a.start.getTime() -
b.start.getTime()`: nonpositive exactly when `a` starts no later than
`b`. -/
def eventLe (a b : Event) : Bool := decide (getTime a.start ≤ getTime b.start)

/-- The cross-batch finalization of lines 339-348: deduplicate the
accumulated events, then sort ascending by start time (`Array.prototype
.sort` is stable and with this comparator sorts ascending). -/
def finalizeEvents (l : List Event) : List Event :=
  (uniqueEvents l).mergeSort eventLe

theorem eventLe_trans : ∀ (a b c : Event),
    eventLe a b = true → eventLe b c = true → eventLe a c = true := by
  intro a b c hab hbc
  simp only [eventLe, decide_eq_true_eq] at hab hbc ⊢
  omega

theorem eventLe_total : ∀ (a b : Event),
    (eventLe a b || eventLe b a) = true := by
  intro a b
  simp only [eventLe, Bool.or_eq_true, decide_eq_true_eq]
  omega

/-- C3: for every accumulated event sequence (hence for any permutation of
the input records), the final emitted sequence contains no two Events with
identical `(start, end, title)` triples and is sorted non-decreasing by
`start`. -/
theorem claim3_final_unique_sorted (l : List Event) :
    List.Pairwise (fun a b =>
      ¬ (a.start = b.start ∧ a.endTime = b.endTime ∧ a.title = b.title))
      (finalizeEvents l) ∧
    List.Pairwise (fun a b => getTime a.start ≤ getTime b.start)
      (finalizeEvents l) := by
  constructor
  · have hperm : (finalizeEvents l).Perm (uniqueEvents l) :=
      List.mergeSort_perm _ _
    have hpair := keepFirst_pairwise l
    rw [← uniqueEvents_eq_keepFirst] at hpair
    have hpair' : List.Pairwise (fun a b =>
        ¬ (a.start = b.start ∧ a.endTime = b.endTime ∧ a.title = b.title))
        (uniqueEvents l) := by
      refine hpair.imp ?_
      intro a b h hcon
      rw [← sameTriple_iff] at hcon
      rw [h] at hcon
      exact Bool.false_ne_true hcon
    refine (List.Perm.pairwise_iff ?_ hperm).mpr hpair'
    intro x y h hcon
    exact h ⟨hcon.1.symm, hcon.2.1.symm, hcon.2.2.symm⟩
  · have hs := List.sorted_mergeSort eventLe_trans eventLe_total (uniqueEvents l)
    refine hs.imp ?_
    intro a b h
    simpa [eventLe, decide_eq_true_eq] using h

/-- Fuel-indexed decimal digit rendering; `fuel > n` always suffices. -/
def natDigitsF : Nat → Nat → List Char
  | 0, _ => []
  | (fuel + 1), n =>
    if n < 10 then [Nat.digitChar n]
    else natDigitsF fuel (n / 10) ++ [Nat.digitChar (n % 10)]

/-- Decimal rendering of a natural number, JavaScript `String(n)` for
nonnegative integers. -/
def natToString (n : Nat) : String := String.mk (natDigitsF (n + 1) n)

/-- JavaScript `String(n)` for an integer. -/
def intToString (n : Int) : String :=
  if n < 0 then "-" ++ natToString (-n).toNat else natToString n.toNat

/-- JavaScript `String.prototype.padStart(2, '0')`. -/
def padStart2 (s : String) : String :=
  if 2 ≤ s.length then s else String.mk (List.replicate (2 - s.length) '0' ++ s.data)

/-- The function `formatICSDateTime` (lines 242-251): year rendered by `String(...)`
with no padding, the five other fields padded to two digits, a literal `T`
between date and time, no timezone suffix.  `getMonth() + 1` is the
1-based `month` field of `JSDate`. -/
def formatICSDateTime (d : JSDate) : String :=
  intToString d.year ++ padStart2 (natToString d.month) ++
    padStart2 (natToString d.day) ++ "T" ++ padStart2 (natToString d.hour) ++
    padStart2 (natToString d.minute) ++ padStart2 (natToString d.second)

/-- Global single-character replacement, `String.prototype.replace` with a
global one-character pattern. -/
def replaceChar (t : Char) (repl : List Char) (l : List Char) : List Char :=
  l.flatMap (fun c => if c = t then repl else [c])

/-- The function `escapeICSValue` (lines 253-260): escape backslash first, then
semicolon, comma, and literal newline. -/
def escapeICSValue (v : String) : String :=
  String.mk (replaceChar '\n' ['\\', 'n']
    (replaceChar ',' ['\\', ',']
      (replaceChar ';' ['\\', ';']
        (replaceChar '\\' ['\\', '\\'] v.data))))

/-- JavaScript `s || dflt` on strings: the empty string is falsy. -/
def strTruthyOr (s dflt : String) : String := if s = "" then dflt else s

/-- The format selector; accepted by `generateCalendar` but unused. -/
inductive CalFormat where
  | outlook
  | apple
deriving DecidableEq

/-- One `VEVENT` block (lines 271-289): description and location lines are
emitted only when the escaped value is non-empty. -/
def eventBlock (e : Event) : String :=
  "BEGIN:VEVENT\r\n" ++
    "DTSTART:" ++ formatICSDateTime e.start ++ "\r\n" ++
    "DTEND:" ++ formatICSDateTime e.endTime ++ "\r\n" ++
    "SUMMARY:" ++ escapeICSValue (strTruthyOr e.title "Work Schedule") ++ "\r\n" ++
    (if escapeICSValue (strTruthyOr e.description "") = "" then ""
      else "DESCRIPTION:" ++ escapeICSValue (strTruthyOr e.description "") ++ "\r\n") ++
    (if escapeICSValue (strTruthyOr e.location "") = "" then ""
      else "LOCATION:" ++ escapeICSValue (strTruthyOr e.location "") ++ "\r\n") ++
    "END:VEVENT\r\n"

/-- The function `generateCalendar` (lines 262-293): the fixed envelope, one block per
event, CRLF line endings throughout.  The `format` parameter is accepted
but never read. -/
def generateCalendar (events : List Event) (format : CalFormat) : String :=
  "BEGIN:VCALENDAR\r\n" ++
    "VERSION:2.0\r\n" ++
    "PRODID:-//Schedule to Calendar//Schedule Converter//EN\r\n" ++
    "CALSCALE:GREGORIAN\r\n" ++
    "METHOD:PUBLISH\r\n" ++
    "X-WR-CALNAME:Work Schedule\r\n" ++
    String.join (events.map eventBlock) ++
    "END:VCALENDAR\r\n"

/-- C9: the format hint does not alter the serialized output: for every
event sequence, the `outlook` and `apple` outputs are identical (the
parameter is never read by the serializer). -/
theorem claim9_format_hint_ignored (events : List Event)
    (f1 f2 : CalFormat) :
    generateCalendar events f1 = generateCalendar events f2 := rfl

set_option maxRecDepth 10000 in
/-- C10: the empty sequence serializes to exactly the envelope — the
`BEGIN:VCALENDAR` line, the five header lines, and the `END:VCALENDAR`
line, each CRLF-terminated, with zero event blocks. -/
theorem claim10_empty_envelope (f : CalFormat) :
    generateCalendar [] f =
      String.join ["BEGIN:VCALENDAR\r\n", "VERSION:2.0\r\n",
        "PRODID:-//Schedule to Calendar//Schedule Converter//EN\r\n",
        "CALSCALE:GREGORIAN\r\n", "METHOD:PUBLISH\r\n",
        "X-WR-CALNAME:Work Schedule\r\n", "END:VCALENDAR\r\n"] := by
  cases f <;> decide

/-- Modelled from the spec: "a value containing `;`, `,`, `\`, and a
newline in `title` is escaped such that decoding reverses to the original
string."  The repository emits but never decodes ICS text, so the standard
RFC 5545 unescaping (backslash releases the next character, `\n` becoming
a newline) is modelled here as the decoder. -/
def unescapeICSChars : List Char → List Char
  | [] => []
  | c :: rest =>
    if c = '\\' then
      match rest with
      | [] => []
      | c2 :: rest2 => (if c2 = 'n' then '\n' else c2) :: unescapeICSChars rest2
    else c :: unescapeICSChars rest

/-- String-level decoder wrapping `unescapeICSChars`. -/
def unescapeICSValue (s : String) : String := String.mk (unescapeICSChars s.data)

/-- The list-level body of `escapeICSValue`: the same four replacements in
the same order. -/
def escChars (l : List Char) : List Char :=
  replaceChar '\n' ['\\', 'n']
    (replaceChar ',' ['\\', ',']
      (replaceChar ';' ['\\', ';']
        (replaceChar '\\' ['\\', '\\'] l)))

theorem escChars_append (l1 l2 : List Char) :
    escChars (l1 ++ l2) = escChars l1 ++ escChars l2 := by
  simp [escChars, replaceChar, List.flatMap_append]

theorem escChars_cons (c : Char) (l : List Char) :
    escChars (c :: l) = escChars [c] ++ escChars l := by
  have h : c :: l = [c] ++ l := rfl
  rw [h, escChars_append]

theorem unescape_escChars (l : List Char) :
    unescapeICSChars (escChars l) = l := by
  induction l with
  | nil => rfl
  | cons c l ih =>
    rw [escChars_cons]
    by_cases h1 : c = '\\'
    · subst h1
      have himg : escChars ['\\'] = ['\\', '\\'] := by decide
      rw [himg]
      simp [unescapeICSChars, ih]
    · by_cases h2 : c = ';'
      · subst h2
        have himg : escChars [';'] = ['\\', ';'] := by decide
        rw [himg]
        simp [unescapeICSChars, ih]
      · by_cases h3 : c = ','
        · subst h3
          have himg : escChars [','] = ['\\', ','] := by decide
          rw [himg]
          simp [unescapeICSChars, ih]
        · by_cases h4 : c = '\n'
          · subst h4
            have himg : escChars ['\n'] = ['\\', 'n'] := by decide
            rw [himg]
            simp [unescapeICSChars, ih]
          · have himg : escChars [c] = [c] := by
              simp [escChars, replaceChar, h1, h2, h3, h4]
            rw [himg]
            simp only [List.cons_append, List.nil_append]
            rw [unescapeICSChars.eq_def]
            simp [h1, ih]

/-- C5: the escaping (backslash first, then semicolon, comma and newline)
is invertible: decoding the escaped value recovers the original string,
for every string — in particular for values containing `;`, `,`, `\` and
newlines. -/
theorem claim5_escape_roundtrip (s : String) :
    unescapeICSValue (escapeICSValue s) = s := by
  have h : escapeICSValue s = String.mk (escChars s.data) := rfl
  rw [h]
  show String.mk (unescapeICSChars (escChars s.data)) = s
  rw [unescape_escChars]

theorem natDigitsF_fuel (n : Nat) : ∀ f1 f2, n < f1 → n < f2 →
    natDigitsF f1 n = natDigitsF f2 n := by
  induction n using Nat.strong_induction_on with
  | _ n ih =>
    intro f1 f2 h1 h2
    obtain ⟨g1, rfl⟩ : ∃ g, f1 = g + 1 := ⟨f1 - 1, by omega⟩
    obtain ⟨g2, rfl⟩ : ∃ g, f2 = g + 1 := ⟨f2 - 1, by omega⟩
    simp only [natDigitsF]
    by_cases hn : n < 10
    · rw [if_pos hn, if_pos hn]
    · rw [if_neg hn, if_neg hn]
      congr 1
      exact ih (n / 10) (by omega) g1 g2 (by omega) (by omega)

theorem natDigitsF_ge10 (f n : Nat) (hf : n < f) (h : 10 ≤ n) :
    natDigitsF f n = natDigitsF (n / 10 + 1) (n / 10) ++ [Nat.digitChar (n % 10)] := by
  obtain ⟨g, rfl⟩ : ∃ g, f = g + 1 := ⟨f - 1, by omega⟩
  simp only [natDigitsF]
  rw [if_neg (by omega)]
  congr 1
  exact natDigitsF_fuel (n / 10) g (n / 10 + 1) (by omega) (by omega)

theorem natDigitsF_lt10 (f n : Nat) (hf : n < f) (h : n < 10) :
    natDigitsF f n = [Nat.digitChar n] := by
  obtain ⟨g, rfl⟩ : ∃ g, f = g + 1 := ⟨f - 1, by omega⟩
  simp only [natDigitsF]
  rw [if_pos h]

theorem natDigitsF_four (n : Nat) (h1 : 1000 ≤ n) (h2 : n ≤ 9999) :
    natDigitsF (n + 1) n =
      [Nat.digitChar (n / 1000), Nat.digitChar (n / 100 % 10),
        Nat.digitChar (n / 10 % 10), Nat.digitChar (n % 10)] := by
  rw [natDigitsF_ge10 (n + 1) n (by omega) (by omega)]
  rw [natDigitsF_ge10 (n / 10 + 1) (n / 10) (by omega) (by omega)]
  rw [natDigitsF_ge10 (n / 10 / 10 + 1) (n / 10 / 10) (by omega) (by omega)]
  rw [natDigitsF_lt10 (n / 10 / 10 / 10 + 1) (n / 10 / 10 / 10) (by omega) (by omega)]
  have e1 : n / 10 / 10 = n / 100 := by omega
  have e2 : n / 10 / 10 / 10 = n / 1000 := by omega
  rw [e1]
  rw [show n / 100 / 10 = n / 1000 from by omega]
  simp

theorem mk_append (l1 l2 : List Char) :
    String.mk l1 ++ String.mk l2 = String.mk (l1 ++ l2) := rfl

theorem natToString_lt10 (n : Nat) (h : n < 10) :
    natToString n = String.mk [Nat.digitChar n] := by
  rw [natToString, natDigitsF_lt10 (n + 1) n (by omega) h]

theorem padStart2_natToString (n : Nat) (h : n < 100) :
    padStart2 (natToString n) =
      String.mk [Nat.digitChar (n / 10), Nat.digitChar (n % 10)] := by
  by_cases h10 : n < 10
  · rw [natToString_lt10 n h10]
    have e1 : n / 10 = 0 := by omega
    have e2 : n % 10 = n := by omega
    rw [e1, e2]
    rfl
  · rw [natToString, natDigitsF_ge10 (n + 1) n (by omega) (by omega),
      natDigitsF_lt10 (n / 10 + 1) (n / 10) (by omega) (by omega)]
    rfl

theorem intToString_4digit (y : Int) (h1 : 1000 ≤ y) (h2 : y ≤ 9999) :
    intToString y =
      String.mk [Nat.digitChar (y.toNat / 1000), Nat.digitChar (y.toNat / 100 % 10),
        Nat.digitChar (y.toNat / 10 % 10), Nat.digitChar (y.toNat % 10)] := by
  rw [intToString, if_neg (by omega), natToString]
  congr 1
  exact natDigitsF_four y.toNat (by omega) (by omega)

/-- A 2-digit zero-padded decimal rendering. -/
def twoDigits (n : Nat) : List Char := [Nat.digitChar (n / 10), Nat.digitChar (n % 10)]

/-- Modelled from the spec: "4-digit year, 2-digit month, 2-digit day,
literal time separator, 2-digit hour, 2-digit minute, 2-digit second" with
no `Z` and no timezone parameter — the compact floating timestamp form the
specification prescribes, built directly from the wall-clock fields. -/
def specCompactTimestamp (d : JSDate) : String :=
  String.mk
    ([Nat.digitChar (d.year.toNat / 1000), Nat.digitChar (d.year.toNat / 100 % 10),
      Nat.digitChar (d.year.toNat / 10 % 10), Nat.digitChar (d.year.toNat % 10)] ++
      twoDigits d.month ++ twoDigits d.day ++ ['T'] ++ twoDigits d.hour ++
      twoDigits d.minute ++ twoDigits d.second)

theorem digitChar_ne_Z (k : Nat) (h : k < 10) : Nat.digitChar k ≠ 'Z' := by
  interval_cases k <;> decide

/-- C6 (amended: restricted to Events whose wall-clock year has four
decimal digits, 1000..9999 — `String(year)` is not padded, so wall-clock
years 100..999, reachable from captured three-digit years, render with
three digits; captured years 0..99 are remapped to 1900..1999 and do
render four): the serializer emits each timestamp in
the compact floating form — 4-digit year, 2-digit month, 2-digit day,
literal `T`, 2-digit hour, minute and second — from exactly the wall-clock
fields captured at normalization time, 15 characters with no `Z` and no
timezone parameter. -/
theorem claim6_compact_timestamp (d : JSDate)
    (h1 : 1000 ≤ d.year) (h2 : d.year ≤ 9999) :
    formatICSDateTime d = specCompactTimestamp d ∧
    (formatICSDateTime d).length = 15 ∧
    'Z' ∉ (formatICSDateTime d).data := by
  have hmo := d.month_le
  have hmo1 := d.month_ge
  have hday := d.day_le
  have hday1 := d.day_ge
  have hdim := daysInMonth_le d.year d.month
  have hh := d.hour_lt
  have hmi := d.minute_lt
  have hs := d.second_lt
  have heq : formatICSDateTime d = specCompactTimestamp d := by
    rw [formatICSDateTime, intToString_4digit d.year h1 h2,
      padStart2_natToString d.month (by omega),
      padStart2_natToString d.day (by omega),
      padStart2_natToString d.hour (by omega),
      padStart2_natToString d.minute (by omega),
      padStart2_natToString d.second (by omega)]
    rw [show ("T" : String) = String.mk ['T'] from rfl]
    simp only [mk_append]
    rw [specCompactTimestamp]
    simp [twoDigits]
  refine ⟨heq, ?_, ?_⟩
  · rw [heq]
    rfl
  · rw [heq]
    intro hmem
    simp only [specCompactTimestamp, twoDigits, List.cons_append, List.nil_append,
      List.mem_cons, List.not_mem_nil, or_false] at hmem
    rcases hmem with h | h | h | h | h | h | h | h | h | h | h | h | h | h | h <;>
      first
        | exact absurd h (by decide)
        | exact digitChar_ne_Z _ (by omega) h.symm

/-- A record whose strictly-matching year is 500: three-digit years are
outside the two-digit-year remap band (0..99 becomes 1900..1999), so the
Event's wall-clock year really is 500, and `String(500)` renders three
characters. -/
def smallYearRecord : RawEventRecord :=
  { start := some "0500-01-10T15:00:00"
    endTime := some "0500-01-10T22:00:00"
    title := none
    summary := none
    description := none
    location := none }

/-- C6, counterexample to the claim as stated: the Event normalized from
`smallYearRecord` has wall-clock year 500 (not remapped, since only 0..99
are) and serializes its start as the 14-character string `5000110T150000`,
not a 4-digit-year 15-character compact timestamp — the year is rendered
by `String(...)` without padding. -/
theorem claim6_counterexample :
    (parseEventsFromJSON (fun _ => none) [smallYearRecord]).map
        (fun e => (e.start.year, formatICSDateTime e.start)) =
      [(500, "5000110T150000")] ∧
    ("5000110T150000" : String).length ≠ 15 := by
  exact ⟨by decide, by decide⟩

/-- Witness for C6 at the specification's example timestamp
2026-01-10 15:00:00. -/
theorem claim6_witness :
    formatICSDateTime date15 = specCompactTimestamp date15 ∧
    (formatICSDateTime date15).length = 15 ∧
    'Z' ∉ (formatICSDateTime date15).data :=
  claim6_compact_timestamp date15 (by decide) (by decide)

/-- The specification's example rendering, evaluated: `DTSTART`'s value
for the example Event is `20260110T150000`. -/
theorem formatICSDateTime_example :
    formatICSDateTime date15 = "20260110T150000" := by decide

/-- A JSON-compatible value, the possible shapes of the collaborator's
parsed response. -/
inductive JSValue where
  | null
  | bool (b : Bool)
  | num (q : Rat)
  | str (s : String)
  | arr (elems : List JSValue)
  | obj (fields : List (String × JSValue))

/-- JavaScript truthiness of a JSON-compatible value. -/
def truthy : JSValue → Bool
  | .null => false
  | .bool b => b
  | .num q => !(q == 0)
  | .str s => !(s == "")
  | .arr _ => true
  | .obj _ => true

/-- Property access `v[k]`: a field lookup on objects, `undefined` (`none`)
on non-null primitives and arrays.  Access on `null` throws and is handled
separately in `selectEventsData`. -/
def getField : JSValue → String → Option JSValue
  | .obj fields, k => (fields.find? (fun p => p.1 == k)).map (fun p => p.2)
  | _, _ => none

/-- JavaScript `a || b` where `a` may be `undefined` (`none`). -/
def jsOrElse (a : Option JSValue) (b : JSValue) : JSValue :=
  match a with
  | some v => if truthy v then v else b
  | none => b

/-- Lines 227-236 of the route handler, from the parsed JSON value onward:
`Array.isArray(parsed) ? parsed : (parsed.events || parsed.data || [])`,
followed by `if (!Array.isArray(eventsData)) return []`.  Accessing
`.events` on `null` throws a TypeError, which the surrounding catch turns
into a thrown `Failed to parse AI response` error (`Except.error`). -/
def selectEventsData : JSValue → Except Unit (List JSValue)
  | .arr l => .ok l
  | .null => .error ()
  | v =>
    match jsOrElse (getField v "events") (jsOrElse (getField v "data") (.arr [])) with
    | .arr l => .ok l
    | _ => .ok []

/-- C8 (amended: a `null` response raises rather than normalizing to
empty, and a truthy non-array `events` field yields empty rather than
falling through to `data`): an array response is used directly; on an
object, a truthy `events` field is used when it is an array and yields the
empty sequence when it is not, otherwise a truthy array `data` field is
used; an object without usable fields (no truthy `events`, and `data`
missing, falsy, or truthy but not an array) and any non-null primitive
response normalize to the empty sequence without any error; a `null`
response raises. -/
theorem claim8_envelope_selection :
    (∀ l, selectEventsData (JSValue.arr l) = Except.ok l) ∧
    (selectEventsData JSValue.null = Except.error ()) ∧
    (∀ fields ev, getField (JSValue.obj fields) "events" = some ev →
      truthy ev = true →
      (∀ l, ev = JSValue.arr l →
        selectEventsData (JSValue.obj fields) = Except.ok l) ∧
      ((∀ l, ev ≠ JSValue.arr l) →
        selectEventsData (JSValue.obj fields) = Except.ok [])) ∧
    (∀ fields, (getField (JSValue.obj fields) "events" = none ∨
        (∃ ev, getField (JSValue.obj fields) "events" = some ev ∧
          truthy ev = false)) →
      (∀ l da, getField (JSValue.obj fields) "data" = some da →
        truthy da = true → da = JSValue.arr l →
        selectEventsData (JSValue.obj fields) = Except.ok l)) ∧
    (∀ fields, (getField (JSValue.obj fields) "events" = none ∨
        (∃ ev, getField (JSValue.obj fields) "events" = some ev ∧
          truthy ev = false)) →
      (getField (JSValue.obj fields) "data" = none ∨
        (∃ da, getField (JSValue.obj fields) "data" = some da ∧
          truthy da = false) ∨
        (∃ da, getField (JSValue.obj fields) "data" = some da ∧
          truthy da = true ∧ ∀ l, da ≠ JSValue.arr l)) →
      selectEventsData (JSValue.obj fields) = Except.ok []) ∧
    (∀ b, selectEventsData (JSValue.bool b) = Except.ok []) ∧
    (∀ q, selectEventsData (JSValue.num q) = Except.ok []) ∧
    (∀ s, selectEventsData (JSValue.str s) = Except.ok []) ∧
    (∀ fb, parseEventsFromJSON fb [] = []) := by
  refine ⟨fun l => rfl, rfl, ?_, ?_, ?_, fun b => rfl, fun q => rfl, fun s => rfl,
    fun fb => rfl⟩
  · intro fields ev hget htruthy
    constructor
    · rintro l rfl
      simp only [selectEventsData, jsOrElse, hget, htruthy, if_true]
    · intro hne
      cases ev with
      | arr l => exact absurd rfl (hne l)
      | null => simp only [selectEventsData, jsOrElse, hget, htruthy, if_true]
      | bool b => simp only [selectEventsData, jsOrElse, hget, htruthy, if_true]
      | num q => simp only [selectEventsData, jsOrElse, hget, htruthy, if_true]
      | str s => simp only [selectEventsData, jsOrElse, hget, htruthy, if_true]
      | obj f => simp only [selectEventsData, jsOrElse, hget, htruthy, if_true]
  · intro fields hev l da hda htruthy hdarr
    subst hdarr
    rcases hev with hnone | ⟨ev, hev, hfalsy⟩
    · simp only [selectEventsData, jsOrElse, hnone, hda, htruthy, if_true]
    · simp only [selectEventsData, jsOrElse, hev, hfalsy, Bool.false_eq_true,
        if_false, hda, htruthy, if_true]
  · intro fields hev hdata
    rcases hev with hnone | ⟨ev, hev, hfalsy⟩ <;>
      rcases hdata with hdnone | ⟨da, hda, hdfalsy⟩ | ⟨da, hda, hdtruthy, hdne⟩
    · simp only [selectEventsData, jsOrElse, hnone, hdnone]
    · simp only [selectEventsData, jsOrElse, hnone, hda, hdfalsy,
        Bool.false_eq_true, if_false]
    · cases da with
      | arr l => exact absurd rfl (hdne l)
      | null => simp only [selectEventsData, jsOrElse, hnone, hda, hdtruthy, if_true]
      | bool b => simp only [selectEventsData, jsOrElse, hnone, hda, hdtruthy, if_true]
      | num q => simp only [selectEventsData, jsOrElse, hnone, hda, hdtruthy, if_true]
      | str s => simp only [selectEventsData, jsOrElse, hnone, hda, hdtruthy, if_true]
      | obj f => simp only [selectEventsData, jsOrElse, hnone, hda, hdtruthy, if_true]
    · simp only [selectEventsData, jsOrElse, hev, hfalsy, Bool.false_eq_true,
        if_false, hdnone]
    · simp only [selectEventsData, jsOrElse, hev, hfalsy, Bool.false_eq_true,
        if_false, hda, hdfalsy]
    · cases da with
      | arr l => exact absurd rfl (hdne l)
      | null => simp only [selectEventsData, jsOrElse, hev, hfalsy,
          Bool.false_eq_true, if_false, hda, hdtruthy, if_true]
      | bool b => simp only [selectEventsData, jsOrElse, hev, hfalsy,
          Bool.false_eq_true, if_false, hda, hdtruthy, if_true]
      | num q => simp only [selectEventsData, jsOrElse, hev, hfalsy,
          Bool.false_eq_true, if_false, hda, hdtruthy, if_true]
      | str s => simp only [selectEventsData, jsOrElse, hev, hfalsy,
          Bool.false_eq_true, if_false, hda, hdtruthy, if_true]
      | obj f => simp only [selectEventsData, jsOrElse, hev, hfalsy,
          Bool.false_eq_true, if_false, hda, hdtruthy, if_true]

/-- C8, counterexample to the claim as stated: a `null` collaborator
response (a JSON-compatible value that is neither an array nor an object
with `events`/`data`) raises instead of normalizing to the empty sequence,
and an object whose truthy `events` field is a non-array string yields the
empty sequence instead of using its `data` array field. -/
theorem claim8_counterexample :
    selectEventsData JSValue.null = Except.error () ∧
    selectEventsData (JSValue.obj
        [("events", JSValue.str "x"), ("data", JSValue.arr [JSValue.bool true])]) =
      Except.ok [] := by
  exact ⟨rfl, rfl⟩

/-- Witness for C8: an object with an `events` array field is used
directly. -/
theorem claim8_witness :
    selectEventsData (JSValue.obj [("events", JSValue.arr [JSValue.null])]) =
      Except.ok [JSValue.null] :=
  (claim8_envelope_selection.2.2.1 [("events", JSValue.arr [JSValue.null])]
      (JSValue.arr [JSValue.null]) rfl rfl).1 [JSValue.null] rfl
